import Mathlib

/-!
Verification of the preview/approve/apply/rollback workflow engine of a
note-editing MCP server.

The development shallowly embeds the content transformer implemented inline in
`mcp_server.py::_handle_preview_update`, the persistence layer of
`database.py`, and the controller endpoints of `web_server.py` and
`mcp_server.py`.  Python strings are modelled as `String` / `List Char`,
machine time as `Nat`, the SQLite tables as Lean lists, and the external Bear
note store as an association list together with a boolean oracle that reports
whether an external write succeeded.
-/

namespace BearMcp

/-- Equality of `Except` values is decidable when both component types have
decidable equality (used to evaluate the model on concrete inputs). -/
instance exceptDecEq {ε α : Type} [DecidableEq ε] [DecidableEq α] :
    DecidableEq (Except ε α)
  | .ok a, .ok b =>
    match decEq a b with
    | isTrue h => isTrue (h ▸ rfl)
    | isFalse h => isFalse fun c => h (Except.ok.inj c)
  | .ok _, .error _ => isFalse fun c => Except.noConfusion c
  | .error _, .ok _ => isFalse fun c => Except.noConfusion c
  | .error e, .error f =>
    match decEq e f with
    | isTrue h => isTrue (h ▸ rfl)
    | isFalse h => isFalse fun c => h (Except.error.inj c)

/-! ## Python string primitives -/

/-- Characters treated as whitespace by Python `str.strip()` / `str.isspace()`:
the ASCII controls `\t`/`\n`/`\v`/`\f`/`\r`, the information separators
U+001C–U+001F, space, next line U+0085, and the Unicode space separators
(U+00A0, U+1680, U+2000–U+200A, U+2028, U+2029, U+202F, U+205F, U+3000). -/
def isPySpace (c : Char) : Bool :=
  decide (0x09 ≤ c.toNat ∧ c.toNat ≤ 0x0d) || c == ' '
  || decide (0x1c ≤ c.toNat ∧ c.toNat ≤ 0x1f)
  || c == '\x85' || c == '\xa0' || c == '\u1680'
  || decide (0x2000 ≤ c.toNat ∧ c.toNat ≤ 0x200a)
  || c == '\u2028' || c == '\u2029' || c == '\u202f' || c == '\u205f' || c == '\u3000' 

/-- Python `str.strip()`: remove leading and trailing whitespace. -/
def pyStrip (l : List Char) : List Char :=
  ((l.dropWhile isPySpace).reverse.dropWhile isPySpace).reverse

/-- Python `needle in hay` on strings: substring occurrence test. -/
def containsSub (needle : List Char) : List Char → Bool
  | [] => needle.isEmpty
  | c :: cs => needle.isPrefixOf (c :: cs) || containsSub needle cs

/-- Python `len(line) - len(line.lstrip('#'))`: number of leading `#`. -/
def countLeadingHash : List Char → Nat
  | [] => 0
  | c :: cs => if c == '#' then countLeadingHash cs + 1 else 0

/-- Python `line.strip().startswith('#')`. -/
def startsHash (line : List Char) : Bool :=
  match pyStrip line with
  | '#' :: _ => true
  | _ => false

/-- Python `s.replace(old, new)` for a non-empty pattern `n :: ns`, replacing
every leftmost non-overlapping occurrence.  The fuel argument makes the
recursion structural; `pyReplaceAll` instantiates it with the input length,
which is enough because every step consumes at least one character. -/
def pyReplaceFuel (n : Char) (ns repl : List Char) : Nat → List Char → List Char
  | _, [] => []
  | 0, s => s
  | fuel + 1, c :: cs =>
    if (n :: ns).isPrefixOf (c :: cs) then
      repl ++ pyReplaceFuel n ns repl fuel (cs.drop ns.length)
    else
      c :: pyReplaceFuel n ns repl fuel cs

/-- Python `s.replace(old, new)`.  The caller in `_handle_preview_update`
guards on a truthy (non-empty) target, so the empty-pattern case never
arises; it is mapped to the identity here. -/
def pyReplaceAll (needle repl s : List Char) : List Char :=
  match needle with
  | [] => s
  | n :: ns => pyReplaceFuel n ns repl s.length s

/-- Python `s.split('\n')`. -/
def splitNl : List Char → List (List Char)
  | [] => [[]]
  | c :: cs =>
    if c == '\n' then [] :: splitNl cs
    else
      match splitNl cs with
      | [] => [[c]]
      | l :: ls => (c :: l) :: ls

/-- Python `'\n'.join(lines)`. -/
def joinNl : List (List Char) → List Char
  | [] => []
  | [l] => l
  | l :: ls => l ++ '\n' :: joinNl ls

/-- Python `lines.insert(i, x)` for an index already clamped to
`0 ≤ i ≤ len(lines)` (an index equal to the length appends). -/
def insertAt (i : Nat) (x : List Char) : List (List Char) → List (List Char)
  | ls =>
    match i, ls with
    | 0, ls => x :: ls
    | _ + 1, [] => [x]
    | i + 1, l :: ls => l :: insertAt i x ls

/-- Remainder of a decimal numeral after its first digit: further digits,
with a single `_` permitted only between two digits (PEP 515), as Python
`int()` accepts. -/
def digitsValAux : List Char → Nat → Option Nat
  | [], acc => some acc
  | ['_'], _ => none
  | '_' :: c :: cs, acc =>
    if c.isDigit then digitsValAux cs (acc * 10 + (c.toNat - '0'.toNat)) else none
  | c :: cs, acc =>
    if c.isDigit then digitsValAux cs (acc * 10 + (c.toNat - '0'.toNat)) else none

/-- Value of a decimal numeral: a leading digit followed by digits with
single underscores allowed between digits; `none` otherwise.  Rejects a
leading, trailing, or doubled underscore, as Python `int()` does. -/
def digitsVal : List Char → Option Nat
  | [] => none
  | c :: cs =>
    if c.isDigit then digitsValAux cs (c.toNat - '0'.toNat) else none

/-- Python `int(target)` on decimal numerals: optional surrounding
whitespace, an optional sign, then digits with single underscores permitted
between digits. -/
def pyInt (s : String) : Option Int :=
  match pyStrip s.data with
  | '-' :: rest => (digitsVal rest).map (fun n => -(n : Int))
  | '+' :: rest => (digitsVal rest).map (fun n => (n : Int))
  | rest => (digitsVal rest).map (fun n => (n : Int))

/-- Python `max(0, min(line_num - 1, len(lines)))`. -/
def clampIndex (n : Int) (len : Nat) : Nat :=
  (max 0 (min (n - 1) (len : Int))).toNat

/-! ## Section lookup for `replace_section` -/

/-- A line matches the section search when it contains the target as a raw
substring and, once stripped, starts with `#`
(`target in line and line.strip().startswith('#')`). -/
def headerMatch (target line : List Char) : Bool :=
  containsSub target line && startsHash line

/-- Index and content of the first line matched by `headerMatch`. -/
def findHeader (target : List Char) : List (List Char) → Option (Nat × List Char)
  | [] => none
  | l :: ls =>
    if headerMatch target l then some (0, l)
    else (findHeader target ls).map (fun p => (p.1 + 1, p.2))

/-- A stripped-`#` line whose leading-`#` count is at most `level`
(the inner-loop condition closing a section). -/
def headerLE (level : Nat) (l : List Char) : Bool :=
  startsHash l && decide (countLeadingHash l ≤ level)

/-- Offset of the first line closing the section, if any. -/
def findEndOff (level : Nat) : List (List Char) → Option Nat
  | [] => none
  | l :: ls =>
    if headerLE level l then some 0
    else (findEndOff level ls).map (fun k => k + 1)

/-- `section_end` of `_handle_preview_update`: the first index after `i` whose
line closes the section at `level`, defaulting to the line count. -/
def sectionEndIdx (level : Nat) (i : Nat) (lines : List (List Char)) : Nat :=
  match findEndOff level (lines.drop (i + 1)) with
  | some k => i + 1 + k
  | none => lines.length

/-! ## The content transformer -/

/-- The operations accepted by `bear_preview_update`. -/
inductive Op
  | append
  | prepend
  | replace
  | insertAtLine
  | replaceSection
  deriving DecidableEq

/-- Failure reasons of the transformation step (each corresponds to one
`ValueError` raised in `_handle_preview_update` before any preview is
stored). -/
inductive TransformError
  | targetNotFound
  | invalidTarget
  | sectionNotFound
  | missingTarget
  deriving DecidableEq

/-- The content-transformation logic of `_handle_preview_update`
(`mcp_server.py`), computing the new note body from the original text, the
operation, the optional target, and the replacement content.  A `none` or
empty target is falsy in Python, hence both select the no-target branches. -/
def transform (op : Op) (original content : String) (target : Option String) :
    Except TransformError String :=
  match op with
  | .append => .ok (original ++ "\n" ++ content)
  | .prepend => .ok (content ++ "\n" ++ original)
  | .replace =>
    match target with
    | none => .ok content
    | some t =>
      match t.data with
      | [] => .ok content
      | n :: ns =>
        if containsSub (n :: ns) original.data then
          .ok (String.mk (pyReplaceAll (n :: ns) content.data original.data))
        else
          .error .targetNotFound
  | .insertAtLine =>
    match target with
    | none => .error .missingTarget
    | some t =>
      if t.data = [] then .error .missingTarget
      else
        match pyInt t with
        | some lineNum =>
          .ok (String.mk (joinNl (insertAt
            (clampIndex lineNum (splitNl original.data).length)
            content.data (splitNl original.data))))
        | none => .error .invalidTarget
  | .replaceSection =>
    match target with
    | none => .error .missingTarget
    | some t =>
      if t.data = [] then .error .missingTarget
      else
        match findHeader t.data (splitNl original.data) with
        | some (i, hl) =>
          .ok (String.mk (joinNl
            ((splitNl original.data).take (i + 1) ++ [content.data] ++
             (splitNl original.data).drop
               (sectionEndIdx (countLeadingHash hl) i (splitNl original.data)))))
        | none => .error .sectionNotFound

/-! ## Workflow state: previews, applied changes, and the note store -/

/-- The `status` column of the `previews` table. -/
inductive Status
  | pending
  | applied
  | rejected
  | expired
  deriving DecidableEq

/-- A row of the `previews` table created by `Database.create_preview`. -/
structure Preview where
  previewId : String
  noteId : String
  operation : Op
  target : Option String
  originalContent : String
  newContent : String
  status : Status
  expiresAt : Nat
  deriving DecidableEq

/-- A row of the `applied_changes` table created by
`Database.create_applied_change` (the `backup_note_id` column is always
`NULL` in `apply_changes` and is omitted). -/
structure AppliedChange where
  rollbackId : String
  previewId : String
  noteId : String
  originalContent : String
  deriving DecidableEq

/-- The two tables of the SQLite database. -/
structure DB where
  previews : List Preview
  appliedChanges : List AppliedChange
  deriving DecidableEq

/-- The external Bear note store, keyed by note id. -/
abbrev Store := List (String × String)

/-- `BearClient.read_note`, restricted to the note body that
`_handle_preview_update` consumes. -/
def readNote (store : Store) (noteId : String) : Option String :=
  (store.find? (fun kv => kv.1 == noteId)).map (fun kv => kv.2)

/-- The effect of a successful `BearClient.update_note(mode="replace")` on the
note store: a full overwrite of the note body. -/
def setNote : Store → String → String → Store
  | [], noteId, c => [(noteId, c)]
  | kv :: rest, noteId, c =>
    if kv.1 == noteId then (noteId, c) :: rest else kv :: setNote rest noteId c

/-- `Database.get_preview`: the row with the given primary key, if any. -/
def getPreview (db : DB) (pid : String) : Option Preview :=
  db.previews.find? (fun p => p.previewId == pid)

/-- `Database.update_preview_status`: unconditional `UPDATE previews SET
status = ? WHERE preview_id = ?`; the boolean is SQLite's `changes() > 0`. -/
def updatePreviewStatus (db : DB) (pid : String) (s : Status) : Bool × DB :=
  (db.previews.any (fun p => p.previewId == pid),
   { db with previews :=
       db.previews.map (fun p => if p.previewId == pid then { p with status := s } else p) })

/-- `Database.create_preview`: inserts a fresh `pending` row whose
`expires_at` is ten minutes (600 seconds) after `now`. -/
def createPreview (db : DB) (pid noteId : String) (op : Op) (target : Option String)
    (original newContent : String) (now : Nat) : DB :=
  { db with previews := db.previews ++
      [{ previewId := pid, noteId := noteId, operation := op, target := target,
         originalContent := original, newContent := newContent,
         status := .pending, expiresAt := now + 600 }] }

/-- `Database.create_applied_change`: inserts a rollback row. -/
def createAppliedChange (db : DB) (rid pid noteId original : String) : DB :=
  { db with appliedChanges := db.appliedChanges ++
      [{ rollbackId := rid, previewId := pid, noteId := noteId,
         originalContent := original }] }

/-- `Database.get_rollback_data`. -/
def getRollbackData (db : DB) (rid : String) : Option AppliedChange :=
  db.appliedChanges.find? (fun ac => ac.rollbackId == rid)

/-- `Database.is_preview_expired`: true, and marks `status := expired`, exactly
when the row exists with `status = pending` and `expires_at < now`. -/
def isPreviewExpired (db : DB) (pid : String) (now : Nat) : Bool × DB :=
  match getPreview db pid with
  | some p =>
    if p.status = Status.pending ∧ p.expiresAt < now then
      (true, (updatePreviewStatus db pid .expired).2)
    else (false, db)
  | none => (false, db)

/-- The status payload returned by `Database.get_preview_status`. -/
structure StatusData where
  status : Status
  rollbackId : Option String
  deriving DecidableEq

/-- `Database.get_preview_status`: current status plus, for an applied
preview, the linked rollback id. -/
def getPreviewStatus (db : DB) (pid : String) : Option StatusData :=
  match getPreview db pid with
  | none => none
  | some p =>
    if p.status = Status.applied then
      some { status := p.status,
             rollbackId := (db.appliedChanges.find?
               (fun ac => ac.previewId == pid)).map (fun ac => ac.rollbackId) }
    else some { status := p.status, rollbackId := none }

/-! ## Workflow controller operations -/

/-- Failure modes of `POST /api/apply/{preview_id}` (`web_server.apply_changes`). -/
inductive ApplyError
  | previewNotFound
  | previewNotPending (s : Status)
  | previewExpired
  | noteWriteFailed
  deriving DecidableEq

/-- Failure mode of `POST /api/reject/{preview_id}` (`web_server.reject_changes`). -/
inductive RejectError
  | previewNotFound
  deriving DecidableEq

/-- Failure mode of `bear_get_status` (`mcp_server._handle_get_status`). -/
inductive GetStatusError
  | previewNotFound
  deriving DecidableEq

/-- Failure modes of `bear_rollback_change` (`mcp_server._handle_rollback_change`). -/
inductive RollbackError
  | rollbackNotFound
  | noteWriteFailed
  deriving DecidableEq

/-- Failure modes of `bear_preview_update` (`mcp_server._handle_preview_update`). -/
inductive PreviewError
  | invalidOperation
  | noteNotFound
  | transformFailed (e : TransformError)
  deriving DecidableEq

/-- `web_server.apply_changes` (decide with approve = true): re-reads the
preview, rejects a non-pending status, re-checks expiry (which may mark the
row expired), then writes the new content to the note store — `writeOk` is
the success bit the external write reports — and only on success records an
`AppliedChange` and transitions the preview to `applied`. -/
def applyChanges (db : DB) (store : Store) (pid rid : String) (now : Nat)
    (writeOk : Bool) : Except ApplyError String × DB × Store :=
  match getPreview db pid with
  | none => (.error .previewNotFound, db, store)
  | some p =>
    if p.status ≠ Status.pending then
      (.error (.previewNotPending p.status), db, store)
    else if (isPreviewExpired db pid now).1 then
      (.error .previewExpired, (isPreviewExpired db pid now).2, store)
    else if writeOk then
      (.ok rid,
       (updatePreviewStatus
         (createAppliedChange db rid pid p.noteId p.originalContent)
         pid Status.applied).2,
       setNote store p.noteId p.newContent)
    else
      (.error .noteWriteFailed, db, store)

/-- `web_server.reject_changes` (decide with approve = false): issues the
status update unconditionally — there is no status or expiry check — and
reports not-found only when the row did not exist.  No note-store write is
performed. -/
def rejectChanges (db : DB) (pid : String) : Except RejectError Unit × DB :=
  let r := updatePreviewStatus db pid .rejected
  if r.1 then (.ok (), r.2) else (.error .previewNotFound, r.2)

/-- `mcp_server._handle_get_status`: fetches the status payload, then runs the
expiry check, overriding the reported status with `expired` when it fires. -/
def handleGetStatus (db : DB) (pid : String) (now : Nat) :
    Except GetStatusError StatusData × DB :=
  match getPreviewStatus db pid with
  | none => (.error .previewNotFound, db)
  | some sd =>
    let r := isPreviewExpired db pid now
    if r.1 then (.ok { sd with status := .expired }, r.2)
    else (.ok sd, r.2)

/-- `mcp_server._handle_rollback_change` (and `web_server.restore_backup`):
looks up the rollback row and blindly writes its `original_content` back to
the note store; the database is never mutated. -/
def handleRollbackChange (db : DB) (store : Store) (rid : String)
    (writeOk : Bool) : Except RollbackError String × DB × Store :=
  match getRollbackData db rid with
  | none => (.error .rollbackNotFound, db, store)
  | some rb =>
    if writeOk then
      (.ok rb.noteId, db, setNote store rb.noteId rb.originalContent)
    else
      (.error .noteWriteFailed, db, store)

/-- Parsing of the `operation` argument against `valid_operations`. -/
def opOfString : String → Option Op
  | "append" => some .append
  | "prepend" => some .prepend
  | "replace" => some .replace
  | "insert_at_line" => some .insertAtLine
  | "replace_section" => some .replaceSection
  | _ => none

/-- `mcp_server._handle_preview_update`: validates the operation name, reads
the note, runs the transformer, and only on success inserts a preview row. -/
def handlePreviewUpdate (db : DB) (store : Store) (pid noteId operation content : String)
    (target : Option String) (now : Nat) : Except PreviewError String × DB :=
  match opOfString operation with
  | none => (.error .invalidOperation, db)
  | some op =>
    match readNote store noteId with
    | none => (.error .noteNotFound, db)
    | some original =>
      match transform op original content target with
      | .error e => (.error (.transformFailed e), db)
      | .ok newContent =>
        (.ok pid, createPreview db pid noteId op target original newContent now)

/-! ## Reachable workflow states -/

/-- States reachable from an empty database by the workflow operations.  The
fresh preview id of a creation step models `uuid.uuid4()`; `externalWrite`
lets the note store be mutated by means outside the workflow. -/
inductive Reachable : DB → Store → Prop
  | init (store : Store) :
      Reachable { previews := [], appliedChanges := [] } store
  | previewStep (db : DB) (store : Store) (pid noteId operation content : String)
      (target : Option String) (now : Nat) :
      Reachable db store →
      (∀ p ∈ db.previews, p.previewId ≠ pid) →
      Reachable (handlePreviewUpdate db store pid noteId operation content target now).2 store
  | applyStep (db : DB) (store : Store) (pid rid : String) (now : Nat) (writeOk : Bool) :
      Reachable db store →
      Reachable (applyChanges db store pid rid now writeOk).2.1
        (applyChanges db store pid rid now writeOk).2.2
  | rejectStep (db : DB) (store : Store) (pid : String) :
      Reachable db store →
      Reachable (rejectChanges db pid).2 store
  | statusStep (db : DB) (store : Store) (pid : String) (now : Nat) :
      Reachable db store →
      Reachable (handleGetStatus db pid now).2 store
  | expireStep (db : DB) (store : Store) (pid : String) (now : Nat) :
      Reachable db store →
      Reachable (isPreviewExpired db pid now).2 store
  | rollbackStep (db : DB) (store : Store) (rid : String) (writeOk : Bool) :
      Reachable db store →
      Reachable (handleRollbackChange db store rid writeOk).2.1
        (handleRollbackChange db store rid writeOk).2.2
  | externalWrite (db : DB) (store : Store) (noteId content : String) :
      Reachable db store →
      Reachable db (setNote store noteId content)

/-- Number of `applied_changes` rows pointing at a preview id. -/
def acCountL (acs : List AppliedChange) (pid : String) : Nat :=
  (acs.filter (fun ac => ac.previewId == pid)).length

/-- Number of `applied_changes` rows pointing at a preview id. -/
def acCount (db : DB) (pid : String) : Nat :=
  acCountL db.appliedChanges pid

/-- The database invariant maintained by the workflow: preview ids are unique,
every rollback row copies its fields from an existing preview, a pending
preview has no rollback row, and an applied preview has exactly one. -/
def Inv (db : DB) : Prop :=
  (db.previews.map (fun p => p.previewId)).Nodup ∧
  (∀ ac ∈ db.appliedChanges, ∃ p ∈ db.previews,
      p.previewId = ac.previewId ∧ p.noteId = ac.noteId ∧
      p.originalContent = ac.originalContent) ∧
  (∀ p ∈ db.previews,
      (p.status = Status.pending → acCount db p.previewId = 0) ∧
      (p.status = Status.applied → acCount db p.previewId = 1))

/-! ## A concrete workflow run: create a preview, apply it, then reject it -/

def exStore : Store := [("n1", "hello")]

def exDb0 : DB := { previews := [], appliedChanges := [] }

def exDb1 : DB := (handlePreviewUpdate exDb0 exStore "p1" "n1" "append" "x" none 0).2

def exDb2 : DB := (applyChanges exDb1 exStore "p1" "r1" 0 true).2.1

def exStore2 : Store := (applyChanges exDb1 exStore "p1" "r1" 0 true).2.2

def exDb3 : DB := (rejectChanges exDb2 "p1").2

def exDbExp : DB := (handleGetStatus exDb1 "p1" 1000).2

/-- The preview row of `exDb1` (pending, expiring at time 600). -/
def exPreviewPending : Preview :=
  { previewId := "p1", noteId := "n1", operation := .append, target := none,
    originalContent := "hello", newContent := "hello\nx",
    status := .pending, expiresAt := 600 }

/-- The preview row of `exDb2`, after apply. -/
def exPreviewApplied : Preview :=
  { exPreviewPending with status := .applied }

/-- The rollback row recorded by the apply step of `exDb2`. -/
def exAc : AppliedChange :=
  { rollbackId := "r1", previewId := "p1", noteId := "n1",
    originalContent := "hello" }

/-! ## Basic lemmas about the store primitives -/

lemma getPreview_mem {db : DB} {pid : String} {p : Preview}
    (h : getPreview db pid = some p) : p ∈ db.previews ∧ p.previewId = pid := by
  unfold getPreview at h
  refine ⟨List.mem_of_find?_eq_some h, ?_⟩
  simpa [beq_iff_eq] using List.find?_some h

lemma getRollbackData_mem {db : DB} {rid : String} {ac : AppliedChange}
    (h : getRollbackData db rid = some ac) :
    ac ∈ db.appliedChanges ∧ ac.rollbackId = rid := by
  unfold getRollbackData at h
  refine ⟨List.mem_of_find?_eq_some h, ?_⟩
  simpa [beq_iff_eq] using List.find?_some h

lemma updateMap_map_previewId (l : List Preview) (pid : String) (s : Status) :
    ((l.map (fun p => if p.previewId == pid then { p with status := s } else p)).map
      (fun p => p.previewId)) = l.map (fun p => p.previewId) := by
  induction l with
  | nil => rfl
  | cons a l ih =>
    simp only [List.map_cons]
    have hhead : (if a.previewId == pid then { a with status := s } else a).previewId
        = a.previewId := by
      cases h : (a.previewId == pid) <;> simp [h]
    rw [hhead, ih]

lemma find?_update (l : List Preview) (pid : String) (s : Status) :
    ((l.map (fun p => if p.previewId == pid then { p with status := s } else p)).find?
        (fun p => p.previewId == pid))
      = (l.find? (fun p => p.previewId == pid)).map (fun p => { p with status := s }) := by
  induction l with
  | nil => rfl
  | cons a l ih =>
    have hid : (if a.previewId == pid then { a with status := s } else a).previewId
        = a.previewId := by
      cases h : (a.previewId == pid) <;> simp [h]
    cases h : (a.previewId == pid) with
    | true =>
      have h' : a.previewId = pid := by simpa using h
      simp [List.find?_cons, h']
    | false =>
      have h' : ¬ a.previewId = pid := by simpa using h
      simpa [List.find?_cons, h'] using ih

lemma getPreview_updateStatus (db : DB) (pid : String) (s : Status) :
    getPreview (updatePreviewStatus db pid s).2 pid
      = (getPreview db pid).map (fun p => { p with status := s }) := by
  simpa [getPreview, updatePreviewStatus] using find?_update db.previews pid s

lemma any_of_getPreview {db : DB} {pid : String} {p : Preview}
    (h : getPreview db pid = some p) :
    db.previews.any (fun q => q.previewId == pid) = true := by
  obtain ⟨hm, hid⟩ := getPreview_mem h
  exact List.any_eq_true.mpr ⟨p, hm, by simp [beq_iff_eq, hid]⟩

lemma acCountL_append (l1 l2 : List AppliedChange) (x : String) :
    acCountL (l1 ++ l2) x = acCountL l1 x + acCountL l2 x := by
  simp [acCountL, List.filter_append]

lemma acCountL_singleton (ac : AppliedChange) (x : String) :
    acCountL [ac] x = if ac.previewId == x then 1 else 0 := by
  cases h : (ac.previewId == x) <;> simp [acCountL, List.filter, h]

lemma acCountL_eq_zero (acs : List AppliedChange) (x : String)
    (h : ∀ ac ∈ acs, ac.previewId ≠ x) : acCountL acs x = 0 := by
  induction acs with
  | nil => rfl
  | cons a l ih =>
    have ha : (a.previewId == x) = false := by
      simpa [beq_iff_eq] using h a (List.mem_cons_self a l)
    have hl := ih (fun ac hac => h ac (List.mem_cons_of_mem a hac))
    simpa [acCountL, List.filter_cons, ha] using hl

lemma nodup_preview_unique {l : List Preview}
    (h : (l.map (fun p => p.previewId)).Nodup)
    {p q : Preview} (hp : p ∈ l) (hq : q ∈ l)
    (hid : p.previewId = q.previewId) : p = q :=
  List.inj_on_of_nodup_map h hp hq hid

lemma readNote_setNote (store : Store) (noteId content : String) :
    readNote (setNote store noteId content) noteId = some content := by
  induction store with
  | nil => simp [setNote, readNote, List.find?]
  | cons kv rest ih =>
    cases h : (kv.1 == noteId) with
    | true => simp [setNote, readNote, List.find?, h]
    | false => simpa [setNote, readNote, List.find?, h] using ih

lemma setNote_idem (store : Store) (noteId content : String) :
    setNote (setNote store noteId content) noteId content
      = setNote store noteId content := by
  induction store with
  | nil => simp [setNote]
  | cons kv rest ih =>
    cases h : (kv.1 == noteId) with
    | true => simp [setNote, h]
    | false => simp [setNote, h, ih]

/-! ## Invariant preservation -/

lemma inv_updateStatus_terminal (db : DB) (pid : String) (s : Status)
    (hs1 : s ≠ Status.pending) (hs2 : s ≠ Status.applied) (h : Inv db) :
    Inv (updatePreviewStatus db pid s).2 := by
  obtain ⟨h1, h2, h3⟩ := h
  refine ⟨?_, ?_, ?_⟩
  · show ((db.previews.map
        (fun p => if p.previewId == pid then { p with status := s } else p)).map
        (fun p => p.previewId)).Nodup
    rw [updateMap_map_previewId]
    exact h1
  · intro ac hac
    have hac' : ac ∈ db.appliedChanges := hac
    obtain ⟨p, hp, hid, hnote, horig⟩ := h2 ac hac'
    refine ⟨if p.previewId == pid then { p with status := s } else p, ?_, ?_⟩
    · simp only [updatePreviewStatus]
      exact List.mem_map.mpr ⟨p, hp, rfl⟩
    · cases hc : (p.previewId == pid) <;> simp [hc, hid, hnote, horig]
  · intro q hq
    have hq' : ∃ p ∈ db.previews,
        (if p.previewId == pid then { p with status := s } else p) = q := by
      simpa [updatePreviewStatus, List.mem_map] using hq
    obtain ⟨p, hp, hpq⟩ := hq'
    have hacc : ∀ x, acCount (updatePreviewStatus db pid s).2 x = acCount db x :=
      fun _ => rfl
    cases hc : (p.previewId == pid) with
    | true =>
      rw [hc] at hpq
      simp only [if_pos rfl] at hpq
      constructor
      · intro hqs
        rw [← hpq] at hqs
        exact absurd hqs hs1
      · intro hqs
        rw [← hpq] at hqs
        exact absurd hqs hs2
    | false =>
      rw [hc] at hpq
      simp only [Bool.false_eq_true, if_neg] at hpq
      rw [← hpq]
      exact ⟨fun hs => by rw [hacc]; exact (h3 p hp).1 hs,
             fun hs => by rw [hacc]; exact (h3 p hp).2 hs⟩

lemma inv_isPreviewExpired (db : DB) (pid : String) (now : Nat) (h : Inv db) :
    Inv (isPreviewExpired db pid now).2 := by
  unfold isPreviewExpired
  cases hp : getPreview db pid with
  | none => simpa using h
  | some p =>
    by_cases hc : p.status = Status.pending ∧ p.expiresAt < now
    · simp only [hc, if_pos]
      exact inv_updateStatus_terminal db pid .expired (by decide) (by decide) h
    · simpa [hc] using h

lemma rejectChanges_db (db : DB) (pid : String) :
    (rejectChanges db pid).2 = (updatePreviewStatus db pid .rejected).2 := by
  unfold rejectChanges
  cases h : (updatePreviewStatus db pid Status.rejected).1 <;> simp [h]

lemma inv_rejectChanges (db : DB) (pid : String) (h : Inv db) :
    Inv (rejectChanges db pid).2 := by
  rw [rejectChanges_db]
  exact inv_updateStatus_terminal db pid .rejected (by decide) (by decide) h

lemma handleGetStatus_db (db : DB) (pid : String) (now : Nat) :
    (handleGetStatus db pid now).2 = (isPreviewExpired db pid now).2 := by
  unfold handleGetStatus
  cases hs : getPreviewStatus db pid with
  | none =>
    unfold getPreviewStatus at hs
    cases hp : getPreview db pid with
    | none => simp [hp, isPreviewExpired]
    | some p =>
      rw [hp] at hs
      by_cases hps : p.status = Status.applied <;> simp [hps] at hs
  | some sd =>
    cases hr : (isPreviewExpired db pid now).1 <;> simp [hs, hr]

lemma inv_handleGetStatus (db : DB) (pid : String) (now : Nat) (h : Inv db) :
    Inv (handleGetStatus db pid now).2 := by
  rw [handleGetStatus_db]
  exact inv_isPreviewExpired db pid now h

lemma handleRollbackChange_db (db : DB) (store : Store) (rid : String) (w : Bool) :
    (handleRollbackChange db store rid w).2.1 = db := by
  unfold handleRollbackChange
  cases h : getRollbackData db rid with
  | none => rfl
  | some rb => cases w <;> simp

lemma inv_apply_success (db : DB) (pid rid : String) (p : Preview)
    (h : Inv db) (hp : getPreview db pid = some p)
    (hpend : p.status = Status.pending) :
    Inv (updatePreviewStatus
      (createAppliedChange db rid pid p.noteId p.originalContent)
      pid Status.applied).2 := by
  obtain ⟨h1, h2, h3⟩ := h
  obtain ⟨hpm, hpid⟩ := getPreview_mem hp
  refine ⟨?_, ?_, ?_⟩
  · show ((db.previews.map
        (fun q => if q.previewId == pid then { q with status := Status.applied } else q)).map
        (fun q => q.previewId)).Nodup
    rw [updateMap_map_previewId]
    exact h1
  · intro ac hac
    have hac' : ac ∈ db.appliedChanges ++
        [{ rollbackId := rid, previewId := pid, noteId := p.noteId,
           originalContent := p.originalContent }] := hac
    rcases List.mem_append.mp hac' with hold | hnew
    · obtain ⟨q, hq, hqid, hqnote, hqorig⟩ := h2 ac hold
      refine ⟨if q.previewId == pid then { q with status := Status.applied } else q, ?_, ?_⟩
      · exact List.mem_map.mpr ⟨q, hq, rfl⟩
      · cases hc : (q.previewId == pid) <;> simp [hc, hqid, hqnote, hqorig]
    · have hacn : ac =
          { rollbackId := rid, previewId := pid, noteId := p.noteId,
            originalContent := p.originalContent } := by simpa using hnew
      subst hacn
      refine ⟨{ p with status := Status.applied }, ?_, ?_⟩
      · refine List.mem_map.mpr ⟨p, hpm, ?_⟩
        simp [beq_iff_eq, hpid]
      · simp [hpid]
  · intro q hq
    have hq' : ∃ r ∈ db.previews,
        (if r.previewId == pid then { r with status := Status.applied } else r) = q :=
      List.mem_map.mp hq
    obtain ⟨r, hr, hrq⟩ := hq'
    have hacc : ∀ x, acCount (updatePreviewStatus
        (createAppliedChange db rid pid p.noteId p.originalContent)
        pid Status.applied).2 x
        = acCountL db.appliedChanges x + (if pid == x then 1 else 0) := by
      intro x
      show acCountL (db.appliedChanges ++
        [{ rollbackId := rid, previewId := pid, noteId := p.noteId,
           originalContent := p.originalContent }]) x = _
      rw [acCountL_append, acCountL_singleton]
    cases hc : (r.previewId == pid) with
    | true =>
      have hrid : r.previewId = pid := by simpa using hc
      rw [hc] at hrq
      simp at hrq
      constructor
      · intro hqs
        rw [← hrq] at hqs
        simp at hqs
      · intro _
        rw [hacc, ← hrq]
        have h0 : acCountL db.appliedChanges pid = 0 := by
          have := (h3 p hpm).1 hpend
          simpa [acCount, hpid] using this
        simp [hrid, h0]
    | false =>
      rw [hc] at hrq
      simp at hrq
      subst hrq
      have hrid : r.previewId ≠ pid := by simpa using hc
      have hnot : (pid == r.previewId) = false := by
        simp [beq_iff_eq]
        exact fun hcontra => hrid hcontra.symm
      constructor
      · intro hs
        have hz := (h3 r hr).1 hs
        simp [hacc, hnot]
        simpa [acCount] using hz
      · intro hs
        have hz := (h3 r hr).2 hs
        simp [hacc, hnot]
        simpa [acCount] using hz

lemma inv_applyChanges (db : DB) (store : Store) (pid rid : String) (now : Nat)
    (writeOk : Bool) (h : Inv db) :
    Inv (applyChanges db store pid rid now writeOk).2.1 := by
  unfold applyChanges
  cases hp : getPreview db pid with
  | none => simpa using h
  | some p =>
    by_cases hst : p.status = Status.pending
    · cases hex : (isPreviewExpired db pid now).1 with
      | true =>
        have : Inv (isPreviewExpired db pid now).2 := inv_isPreviewExpired db pid now h
        simpa [hst, hex] using this
      | false =>
        cases writeOk with
        | true =>
          have := inv_apply_success db pid rid p h hp hst
          simpa [hst, hex] using this
        | false => simpa [hst, hex] using h
    · simpa [hst] using h

lemma inv_createPreview (db : DB) (pid noteId : String) (op : Op)
    (target : Option String) (original newContent : String) (now : Nat)
    (h : Inv db) (hfresh : ∀ p ∈ db.previews, p.previewId ≠ pid) :
    Inv (createPreview db pid noteId op target original newContent now) := by
  obtain ⟨h1, h2, h3⟩ := h
  refine ⟨?_, ?_, ?_⟩
  · show ((db.previews ++
      [({ previewId := pid, noteId := noteId, operation := op, target := target,
          originalContent := original, newContent := newContent,
          status := .pending, expiresAt := now + 600 } : Preview)]).map
        (fun p => p.previewId)).Nodup
    rw [List.map_append, List.nodup_append]
    refine ⟨h1, List.nodup_singleton _, ?_⟩
    intro a ha hb
    obtain ⟨q, hq, hqa⟩ := List.mem_map.mp ha
    have : a = pid := by simpa using hb
    exact hfresh q hq (by rw [hqa, this])
  · intro ac hac
    obtain ⟨p, hp, rest⟩ := h2 ac hac
    exact ⟨p, List.mem_append_left _ hp, rest⟩
  · intro q hq
    have hacc : ∀ x, acCount (createPreview db pid noteId op target original newContent now) x
        = acCountL db.appliedChanges x := fun _ => rfl
    rcases List.mem_append.mp hq with hold | hnew
    · exact ⟨fun hs => by rw [hacc]; simpa [acCount] using (h3 q hold).1 hs,
             fun hs => by rw [hacc]; simpa [acCount] using (h3 q hold).2 hs⟩
    · have hqn : q =
          { previewId := pid, noteId := noteId, operation := op, target := target,
            originalContent := original, newContent := newContent,
            status := .pending, expiresAt := now + 600 } := by simpa using hnew
      subst hqn
      constructor
      · intro _
        rw [hacc]
        apply acCountL_eq_zero
        intro ac hac hacid
        obtain ⟨p, hp, hpid, _, _⟩ := h2 ac hac
        exact hfresh p hp (by rw [hpid, hacid])
      · intro hs
        simp at hs

lemma inv_handlePreviewUpdate (db : DB) (store : Store)
    (pid noteId operation content : String) (target : Option String) (now : Nat)
    (h : Inv db) (hfresh : ∀ p ∈ db.previews, p.previewId ≠ pid) :
    Inv (handlePreviewUpdate db store pid noteId operation content target now).2 := by
  unfold handlePreviewUpdate
  cases h1 : opOfString operation with
  | none => simpa using h
  | some op =>
    cases h2 : readNote store noteId with
    | none => simpa using h
    | some original =>
      cases h3 : transform op original content target with
      | error e => simpa [h3] using h
      | ok newContent =>
        simpa [h3] using inv_createPreview db pid noteId op target original newContent now h hfresh

/-- Every state reachable by the workflow operations satisfies the database
invariant. -/
theorem reachable_inv {db : DB} {store : Store} (h : Reachable db store) : Inv db := by
  induction h with
  | init store => exact ⟨by simp, by simp, by simp⟩
  | previewStep db store pid noteId operation content target now _ hfresh ih =>
    exact inv_handlePreviewUpdate db store pid noteId operation content target now ih hfresh
  | applyStep db store pid rid now writeOk _ ih =>
    exact inv_applyChanges db store pid rid now writeOk ih
  | rejectStep db store pid _ ih =>
    exact inv_rejectChanges db pid ih
  | statusStep db store pid now _ ih =>
    exact inv_handleGetStatus db pid now ih
  | expireStep db store pid now _ ih =>
    exact inv_isPreviewExpired db pid now ih
  | rollbackStep db store rid writeOk _ ih =>
    rw [handleRollbackChange_db]
    exact ih
  | externalWrite db store noteId content _ ih =>
    exact ih

/-! ## Reachability of the concrete workflow run -/

lemma reachable_exDb1 : Reachable exDb1 exStore := by
  have h0 : Reachable exDb0 exStore := Reachable.init exStore
  exact Reachable.previewStep exDb0 exStore "p1" "n1" "append" "x" none 0 h0
    (by intro p hp; exact absurd hp (List.not_mem_nil p))

lemma reachable_exDb2 : Reachable exDb2 exStore2 :=
  Reachable.applyStep exDb1 exStore "p1" "r1" 0 true reachable_exDb1

lemma reachable_exDb3 : Reachable exDb3 exStore2 :=
  Reachable.rejectStep exDb2 exStore2 "p1" reachable_exDb2

lemma reachable_exDbExp : Reachable exDbExp exStore :=
  Reachable.statusStep exDb1 exStore "p1" 1000 reachable_exDb1

/-! ## Claim C1: `replace` with a target -/

lemma pyReplaceFuel_single (c : Char) (repl : List Char) :
    ∀ (s : List Char) (f : Nat), s.length ≤ f →
      pyReplaceFuel c [] repl f s
        = s.flatMap (fun x => if x == c then repl else [x]) := by
  intro s
  induction s with
  | nil => intro f _; cases f <;> rfl
  | cons x xs ih =>
    intro f hf
    cases f with
    | zero => simp at hf
    | succ f =>
      have hlen : xs.length ≤ f := by simpa using hf
      by_cases hx : x = c
      · subst hx
        have hpre : (x :: ([] : List Char)).isPrefixOf (x :: xs) = true := by
          simp [List.isPrefixOf]
        simp only [pyReplaceFuel, hpre, if_pos]
        simp [ih f hlen]
      · have hpre : (c :: ([] : List Char)).isPrefixOf (x :: xs) = false := by
          simp [List.isPrefixOf, beq_iff_eq]
          exact fun hcx => hx hcx.symm
        simp only [pyReplaceFuel, hpre]
        simp [ih f hlen, hx]

lemma string_of_data_nil {t : String} (h : t.data = []) : t = "" := by
  obtain ⟨l⟩ := t
  exact congrArg String.mk h

lemma pyReplaceAll_cons (n : Char) (ns repl s : List Char) :
    pyReplaceAll (n :: ns) repl s = pyReplaceFuel n ns repl s.length s := rfl

lemma isPrefixOf_append_self (l t : List Char) : l.isPrefixOf (l ++ t) = true := by
  induction l with
  | nil => simp [List.isPrefixOf]
  | cons a l ih => simp [List.isPrefixOf, ih]

lemma pyReplaceFuel_congr (n : Char) (ns repl : List Char) :
    ∀ (L : Nat) (s : List Char), s.length ≤ L → ∀ f g : Nat,
      s.length ≤ f → s.length ≤ g →
      pyReplaceFuel n ns repl f s = pyReplaceFuel n ns repl g s := by
  intro L
  induction L with
  | zero =>
    intro s hs f g _ _
    have hnil : s = [] := List.eq_nil_of_length_eq_zero (Nat.le_zero.mp hs)
    subst hnil
    simp [pyReplaceFuel]
  | succ L ih =>
    intro s hs f g hf hg
    cases s with
    | nil => simp [pyReplaceFuel]
    | cons c cs =>
      have hs' : cs.length ≤ L := by simpa using hs
      obtain ⟨f', rfl⟩ : ∃ f', f = f' + 1 := by
        cases f with
        | zero => simp at hf
        | succ f' => exact ⟨f', rfl⟩
      obtain ⟨g', rfl⟩ : ∃ g', g = g' + 1 := by
        cases g with
        | zero => simp at hg
        | succ g' => exact ⟨g', rfl⟩
      have hf' : cs.length ≤ f' := by simpa using hf
      have hg' : cs.length ≤ g' := by simpa using hg
      simp only [pyReplaceFuel]
      by_cases hpre : ((n :: ns).isPrefixOf (c :: cs)) = true
      · rw [if_pos hpre, if_pos hpre]
        congr 1
        apply ih
        · rw [List.length_drop]; omega
        · rw [List.length_drop]; omega
        · rw [List.length_drop]; omega
      · rw [if_neg hpre, if_neg hpre]
        congr 1
        exact ih cs hs' f' g' hf' hg'

lemma pyReplaceFuel_no_occurrence (n : Char) (ns repl : List Char) :
    ∀ (s : List Char) (f : Nat), containsSub (n :: ns) s = false →
      pyReplaceFuel n ns repl f s = s := by
  intro s
  induction s with
  | nil => intro f _; simp [pyReplaceFuel]
  | cons c cs ih =>
    intro f hno
    have hsplit : (n :: ns).isPrefixOf (c :: cs) = false ∧
        containsSub (n :: ns) cs = false := by
      have h := hno
      rw [containsSub] at h
      exact Bool.or_eq_false_iff.mp h
    cases f with
    | zero => simp [pyReplaceFuel]
    | succ f =>
      simp only [pyReplaceFuel]
      rw [if_neg (by simp [hsplit.1]), ih f hsplit.2]

lemma pyReplaceAll_no_occurrence (n : Char) (ns repl s : List Char)
    (h : containsSub (n :: ns) s = false) :
    pyReplaceAll (n :: ns) repl s = s :=
  pyReplaceFuel_no_occurrence n ns repl s s.length h

lemma pyReplaceAll_leftmost (n : Char) (ns repl : List Char) :
    ∀ (a b : List Char),
      (∀ i, i < a.length →
        (n :: ns).isPrefixOf ((a ++ (n :: ns) ++ b).drop i) = false) →
      pyReplaceAll (n :: ns) repl (a ++ (n :: ns) ++ b)
        = a ++ repl ++ pyReplaceAll (n :: ns) repl b := by
  intro a
  induction a with
  | nil =>
    intro b _
    simp only [List.nil_append]
    rw [pyReplaceAll_cons, List.cons_append, List.length_cons]
    have hpre : ((n :: ns).isPrefixOf (n :: (ns ++ b))) = true := by
      have h := isPrefixOf_append_self (n :: ns) b
      rwa [List.cons_append] at h
    simp only [pyReplaceFuel]
    rw [if_pos hpre, List.drop_left]
    congr 1
    rw [pyReplaceAll_cons]
    exact pyReplaceFuel_congr n ns repl (ns ++ b).length b
      (by rw [List.length_append]; omega) (ns ++ b).length b.length
      (by rw [List.length_append]; omega) (le_refl _)
  | cons x a ih =>
    intro b hocc
    have h0 : ((n :: ns).isPrefixOf (x :: (a ++ (n :: ns) ++ b))) = false := by
      have h := hocc 0 (by simp)
      simpa [List.cons_append] using h
    rw [pyReplaceAll_cons]
    simp only [List.cons_append]
    rw [List.length_cons]
    simp only [pyReplaceFuel]
    rw [if_neg (by rw [h0]; exact Bool.false_ne_true)]
    congr 1
    rw [← pyReplaceAll_cons]
    apply ih
    intro i hi
    have h := hocc (i + 1) (by simp; omega)
    simpa [List.cons_append] using h

/-- Claim C1, corrected: `transform` with operation `replace` and a non-empty
target that occurs in the original returns the original with every leftmost
non-overlapping occurrence of the target replaced by the content — not only
the first one — and fails with `TargetNotFound` exactly when the target does
not occur.  The replacement function is characterized for every non-empty
needle: text without an occurrence is returned unchanged, and when the
leftmost occurrence sits at the end of a prefix `a` (no occurrence starts
inside `a`), that occurrence is replaced and the replacement continues after
it, so every later occurrence is replaced as well.  For a single-character
target this yields the pointwise substitution of every occurrence. -/
theorem transform_replace_replaces_all_occurrences (original content : String) :
    (∀ t : String, ¬ t.data = [] → containsSub t.data original.data = true →
      transform Op.replace original content (some t)
        = .ok (String.mk (pyReplaceAll t.data content.data original.data))) ∧
    (∀ t : String, t ≠ "" → containsSub t.data original.data = false →
      transform Op.replace original content (some t) = .error .targetNotFound) ∧
    (∀ (n : Char) (ns repl s : List Char), containsSub (n :: ns) s = false →
      pyReplaceAll (n :: ns) repl s = s) ∧
    (∀ (n : Char) (ns repl a b : List Char),
      (∀ i, i < a.length →
        (n :: ns).isPrefixOf ((a ++ (n :: ns) ++ b).drop i) = false) →
      pyReplaceAll (n :: ns) repl (a ++ (n :: ns) ++ b)
        = a ++ repl ++ pyReplaceAll (n :: ns) repl b) ∧
    (∀ c : Char, containsSub [c] original.data = true →
      transform Op.replace original content (some (String.mk [c])) =
        .ok (String.mk (original.data.flatMap
          (fun x => if x == c then content.data else [x])))) := by
  refine ⟨?_, ?_, ?_, ?_, ?_⟩
  · intro t htne hocc
    obtain ⟨m, ms, hd⟩ : ∃ m ms, t.data = m :: ms := by
      cases hts : t.data with
      | nil => exact absurd hts htne
      | cons m ms => exact ⟨m, ms, rfl⟩
    simp only [transform]
    rw [hd]
    rw [hd] at hocc
    simp [hocc]
  · intro t ht hnocc
    obtain ⟨m, ms, hd⟩ : ∃ m ms, t.data = m :: ms := by
      cases hts : t.data with
      | nil => exact absurd (string_of_data_nil hts) ht
      | cons m ms => exact ⟨m, ms, rfl⟩
    simp only [transform]
    rw [hd]
    rw [hd] at hnocc
    simp [hnocc]
  · intro n ns repl s h
    exact pyReplaceAll_no_occurrence n ns repl s h
  · intro n ns repl a b h
    exact pyReplaceAll_leftmost n ns repl a b h
  · intro c hocc
    have hstep : transform Op.replace original content (some (String.mk [c])) =
        if containsSub [c] original.data then
          .ok (String.mk (pyReplaceAll [c] content.data original.data))
        else .error .targetNotFound := rfl
    rw [hstep, if_pos hocc]
    have hflat : pyReplaceAll [c] content.data original.data
        = original.data.flatMap (fun x => if x == c then content.data else [x]) := by
      show pyReplaceFuel c [] content.data original.data.length original.data = _
      exact pyReplaceFuel_single c content.data original.data original.data.length
        (le_refl _)
    rw [hflat]

/-- Claim C1 counterexample: on `"a-b-a"` with target `"a"` and content `"X"`
the code produces `"X-b-X"` (Python `str.replace` replaces all occurrences),
not the `"X-b-a"` the claim asserts. -/
theorem transform_replace_first_only_counterexample :
    transform Op.replace "a-b-a" "X" (some "a") = .ok "X-b-X" ∧
    transform Op.replace "a-b-a" "X" (some "a") ≠ .ok "X-b-a" := by
  constructor
  · decide
  · decide

/-- Witness instantiating `transform_replace_replaces_all_occurrences` at a
multi-character target with two occurrences: both are replaced. -/
theorem transform_replace_replaces_all_occurrences_witness :
    transform Op.replace "abab" "X" (some "ab") = .ok "XX" := by
  have h := (transform_replace_replaces_all_occurrences "abab" "X").1 "ab"
    (by decide) (by decide)
  exact h.trans (congrArg Except.ok (by decide))

/-! ## Claim C7: `insert_at_line` clamps the line index -/

lemma findHeader_none_iff (t : List Char) (ls : List (List Char)) :
    findHeader t ls = none ↔ ∀ l ∈ ls, headerMatch t l = false := by
  induction ls with
  | nil => simp [findHeader]
  | cons a ls ih =>
    cases hb : headerMatch t a with
    | true => simp [findHeader, hb]
    | false => simp [findHeader, hb, ih]

lemma findHeader_some (t : List Char) (ls : List (List Char)) (i : Nat)
    (hl : List Char) (h : findHeader t ls = some (i, hl)) :
    i < ls.length ∧ ls.getD i [] = hl ∧ headerMatch t hl = true ∧
      ∀ j, j < i → headerMatch t (ls.getD j []) = false := by
  induction ls generalizing i hl with
  | nil => cases h
  | cons a ls ih =>
    cases hb : headerMatch t a with
    | true =>
      simp [findHeader, hb] at h
      obtain ⟨hi, hhl⟩ := h
      subst hi
      subst hhl
      refine ⟨by simp, rfl, hb, ?_⟩
      intro j hj
      omega
    | false =>
      rw [findHeader, if_neg (by simp [hb])] at h
      cases hfi : findHeader t ls with
      | none => rw [hfi] at h; cases h
      | some pr =>
        obtain ⟨i', hl'⟩ := pr
        rw [hfi] at h
        simp at h
        obtain ⟨hi, hhl⟩ := h
        subst hi
        subst hhl
        obtain ⟨hlen, hget, hmatch, hfirst⟩ := ih i' hl' hfi
        refine ⟨by simpa using hlen, by simpa using hget, hmatch, ?_⟩
        intro j hj
        cases j with
        | zero => simpa using hb
        | succ j => simpa using hfirst j (by omega)

lemma findEndOff_none_iff (level : Nat) (ls : List (List Char)) :
    findEndOff level ls = none ↔ ∀ l ∈ ls, headerLE level l = false := by
  induction ls with
  | nil => simp [findEndOff]
  | cons a ls ih =>
    cases hb : headerLE level a with
    | true => simp [findEndOff, hb]
    | false => simp [findEndOff, hb, ih]

lemma findEndOff_some (level : Nat) (ls : List (List Char)) (k : Nat)
    (h : findEndOff level ls = some k) :
    k < ls.length ∧ headerLE level (ls.getD k []) = true ∧
      ∀ j, j < k → headerLE level (ls.getD j []) = false := by
  induction ls generalizing k with
  | nil => cases h
  | cons a ls ih =>
    cases hb : headerLE level a with
    | true =>
      simp [findEndOff, hb] at h
      subst h
      refine ⟨by simp, hb, ?_⟩
      intro j hj
      omega
    | false =>
      rw [findEndOff, if_neg (by simp [hb])] at h
      cases hfk : findEndOff level ls with
      | none => rw [hfk] at h; cases h
      | some k' =>
        rw [hfk] at h
        simp at h
        subst h
        obtain ⟨hlen, hhead, hfirst⟩ := ih k' hfk
        refine ⟨by simpa using hlen, by simpa using hhead, ?_⟩
        intro j hj
        cases j with
        | zero => simpa using hb
        | succ j => simpa using hfirst j (by omega)

lemma getD_mem (l : List (List Char)) (k : Nat) (h : k < l.length) :
    l.getD k [] ∈ l := by
  induction l generalizing k with
  | nil => simp at h
  | cons a l ih =>
    cases k with
    | zero => simp
    | succ k =>
      simp only [List.getD_cons_succ, List.mem_cons]
      exact Or.inr (ih k (by simpa using h))

lemma getD_drop (l : List (List Char)) (nn k : Nat) :
    (l.drop nn).getD k [] = l.getD (nn + k) [] := by
  induction l generalizing nn with
  | nil => simp
  | cons a l ih =>
    cases nn with
    | zero => simp
    | succ nn =>
      have h := ih nn
      simp only [List.drop_succ_cons, List.getD_cons_succ, Nat.succ_add]
      exact h

/-- Claim C8: `transform` with operation `replaceSection` finds the first line
that contains the target as a substring and, once stripped, starts with `#`,
records its leading-`#` count as the level, and replaces everything strictly
between that header line and the first subsequent header of level at most the
recorded level (or the end of the document) by the single content block — the
header line itself is kept.  On the spec's example the body of section `T` is
replaced; when no line matches, it fails with `SectionNotFound`. -/
theorem replaceSection_behavior :
    (transform Op.replaceSection "# T\nbody1\nbody2\n# U\nx" "new" (some "T")
      = .ok "# T\nnew\n# U\nx") ∧
    (∀ (original content t : String), t ≠ "" →
      (∀ line ∈ splitNl original.data, headerMatch t.data line = false) →
      transform Op.replaceSection original content (some t)
        = .error .sectionNotFound) ∧
    (∀ (original content t : String) (i : Nat) (hl : List Char), t ≠ "" →
      findHeader t.data (splitNl original.data) = some (i, hl) →
      (splitNl original.data).getD i [] = hl ∧
      headerMatch t.data hl = true ∧
      (∀ j, j < i → headerMatch t.data ((splitNl original.data).getD j []) = false) ∧
      transform Op.replaceSection original content (some t) =
        .ok (String.mk (joinNl ((splitNl original.data).take (i + 1) ++
          [content.data] ++ (splitNl original.data).drop
            (sectionEndIdx (countLeadingHash hl) i (splitNl original.data))))) ∧
      (let lines := splitNl original.data
       let level := countLeadingHash hl
       let endIdx := sectionEndIdx level i lines
       (endIdx = lines.length ∧
          ∀ j, i + 1 ≤ j → j < lines.length → headerLE level (lines.getD j []) = false) ∨
       (endIdx < lines.length ∧ headerLE level (lines.getD endIdx []) = true ∧
          ∀ j, i + 1 ≤ j → j < endIdx → headerLE level (lines.getD j []) = false))) := by
  refine ⟨by decide, ?_, ?_⟩
  · intro original content t ht hnone
    have hne : ¬ t.data = [] := fun hd => ht (string_of_data_nil hd)
    have hfind : findHeader t.data (splitNl original.data) = none :=
      (findHeader_none_iff t.data (splitNl original.data)).mpr hnone
    simp only [transform]
    rw [if_neg hne, hfind]
  · intro original content t i hl ht hfind
    have hne : ¬ t.data = [] := fun hd => ht (string_of_data_nil hd)
    obtain ⟨hlen, hget, hmatch, hfirst⟩ :=
      findHeader_some t.data (splitNl original.data) i hl hfind
    refine ⟨hget, hmatch, hfirst, ?_, ?_⟩
    · simp only [transform]
      rw [if_neg hne, hfind]
    · cases hoff : findEndOff (countLeadingHash hl) ((splitNl original.data).drop (i + 1)) with
      | none =>
        left
        have hend : sectionEndIdx (countLeadingHash hl) i (splitNl original.data)
            = (splitNl original.data).length := by
          unfold sectionEndIdx
          rw [hoff]
        refine ⟨hend, ?_⟩
        intro j hj1 hj2
        have hmem : (splitNl original.data).getD j [] ∈
            (splitNl original.data).drop (i + 1) := by
          have : ((splitNl original.data).drop (i + 1)).getD (j - (i + 1)) []
              = (splitNl original.data).getD j [] := by
            rw [getD_drop]
            congr 1
            omega
          rw [← this]
          apply getD_mem
          rw [List.length_drop]
          omega
        exact (findEndOff_none_iff _ _).mp hoff _ hmem
      | some k =>
        right
        have hend : sectionEndIdx (countLeadingHash hl) i (splitNl original.data)
            = i + 1 + k := by
          unfold sectionEndIdx
          rw [hoff]
        obtain ⟨hklen, hkhead, hkfirst⟩ := findEndOff_some _ _ k hoff
        rw [List.length_drop] at hklen
        refine ⟨?_, ?_, ?_⟩
        · rw [hend]; omega
        · rw [hend]
          have := hkhead
          rwa [getD_drop] at this
        · intro j hj1 hj2
          rw [hend] at hj2
          have := hkfirst (j - (i + 1)) (by omega)
          rwa [getD_drop, Nat.add_sub_cancel' hj1] at this

/-- Witness instantiating `replaceSection_behavior` on a note with no
matching heading: `SectionNotFound` is reported. -/
theorem replaceSection_behavior_witness :
    transform Op.replaceSection "abc\ndef" "z" (some "Q")
      = .error .sectionNotFound :=
  replaceSection_behavior.2.1 "abc\ndef" "z" "Q" (by decide) (by decide)

/-! ## Claim C10: `replace` with an empty target is a full overwrite -/

/-- Claim C10: an empty-string target is falsy in Python, so `previewEdit`
with operation `replace` and target `""` takes the no-target branch: the new
content is `content` verbatim and the result coincides with the absent-target
call; `TargetNotFound` is impossible there even though the empty string
occurs as a substring of every original. -/
theorem replace_empty_target_full_overwrite (original content : String) :
    transform Op.replace original content (some "") = .ok content ∧
    transform Op.replace original content (some "")
      = transform Op.replace original content none ∧
    containsSub [] original.data = true := by
  refine ⟨rfl, rfl, ?_⟩
  cases original.data with
  | nil => rfl
  | cons c cs => simp [containsSub, List.isPrefixOf]

/-! ## Claim C9: no preview row is created on a failure path -/

/-- Claim C9: `previewEdit` creates no preview row on any failure — an
invalid operation name, an unresolvable note id, or a transformer failure
(which includes a missing target) — and each failure surfaces its specific
reason; a row is appended exactly when the transformer succeeds. -/
theorem previewUpdate_failure_no_preview (db : DB) (store : Store)
    (pid noteId operation content : String) (target : Option String) (now : Nat) :
    (∀ e, (handlePreviewUpdate db store pid noteId operation content target now).1
        = .error e →
      (handlePreviewUpdate db store pid noteId operation content target now).2 = db) ∧
    (opOfString operation = none →
      (handlePreviewUpdate db store pid noteId operation content target now).1
        = .error .invalidOperation) ∧
    (∀ op, opOfString operation = some op → readNote store noteId = none →
      (handlePreviewUpdate db store pid noteId operation content target now).1
        = .error .noteNotFound) ∧
    (∀ op original te, opOfString operation = some op →
      readNote store noteId = some original →
      transform op original content target = .error te →
      (handlePreviewUpdate db store pid noteId operation content target now).1
        = .error (.transformFailed te)) ∧
    (∀ op original newContent, opOfString operation = some op →
      readNote store noteId = some original →
      transform op original content target = .ok newContent →
      handlePreviewUpdate db store pid noteId operation content target now
        = (.ok pid, createPreview db pid noteId op target original newContent now)) := by
  refine ⟨?_, ?_, ?_, ?_, ?_⟩
  · intro e he
    unfold handlePreviewUpdate at he ⊢
    cases h1 : opOfString operation with
    | none => rfl
    | some op =>
      cases h2 : readNote store noteId with
      | none => simp [h1, h2]
      | some original =>
        cases h3 : transform op original content target with
        | error te => simp [h1, h2, h3]
        | ok newContent => simp [h1, h2, h3] at he
  · intro h1
    unfold handlePreviewUpdate
    simp [h1]
  · intro op h1 h2
    unfold handlePreviewUpdate
    simp [h1, h2]
  · intro op original te h1 h2 h3
    unfold handlePreviewUpdate
    simp [h1, h2, h3]
  · intro op original newContent h1 h2 h3
    unfold handlePreviewUpdate
    simp [h1, h2, h3]

/-- Witness instantiating `previewUpdate_failure_no_preview`: an invalid
operation name fails with the specific reason and leaves the database
unchanged. -/
theorem previewUpdate_failure_no_preview_witness :
    (handlePreviewUpdate exDb0 exStore "p9" "n1" "bogus" "x" none 0).1
        = .error .invalidOperation ∧
    (handlePreviewUpdate exDb0 exStore "p9" "n1" "bogus" "x" none 0).2 = exDb0 := by
  have h := previewUpdate_failure_no_preview exDb0 exStore "p9" "n1" "bogus" "x" none 0
  have h1 := h.2.1 (by decide)
  exact ⟨h1, h.1 PreviewError.invalidOperation h1⟩

/-! ## Claim C2: deciding a preview in a terminal state -/

/-- Claim C2, corrected: `decide` with approve = true on a preview whose
status is terminal fails with the state-conflict error, performs no
note-store write, and leaves the database untouched; but `decide` with
approve = false performs no status check at all — it succeeds on any
existing preview and overwrites its status with `rejected` (still without any
note-store write), so a transition out of a terminal state does occur. -/
theorem decide_on_terminal_preview (db : DB) (store : Store)
    (pid rid : String) (now : Nat) (writeOk : Bool) (p : Preview)
    (hp : getPreview db pid = some p) :
    (p.status ≠ Status.pending →
      applyChanges db store pid rid now writeOk
        = (.error (.previewNotPending p.status), db, store)) ∧
    ((rejectChanges db pid).1 = .ok () ∧
      getPreview (rejectChanges db pid).2 pid
        = some { p with status := .rejected }) := by
  constructor
  · intro hst
    unfold applyChanges
    rw [hp]
    simp [hst]
  · have hany := any_of_getPreview hp
    have hb : (updatePreviewStatus db pid Status.rejected).1 = true := hany
    constructor
    · unfold rejectChanges
      simp [hb]
    · rw [rejectChanges_db, getPreview_updateStatus, hp]
      rfl

/-- Claim C2 counterexample: in a reachable state holding an `applied`
preview, `decide` with approve = false succeeds and moves the preview to
`rejected` instead of failing with a state conflict. -/
theorem reject_applied_preview_counterexample :
    ∃ (db : DB) (store : Store), Reachable db store ∧
      ∃ p ∈ db.previews, p.status = Status.applied ∧
        (rejectChanges db p.previewId).1 = .ok () ∧
        getPreview (rejectChanges db p.previewId).2 p.previewId
          = some { p with status := Status.rejected } := by
  refine ⟨exDb2, exStore2, reachable_exDb2, exPreviewApplied, ?_, ?_, ?_, ?_⟩
  · decide
  · decide
  · decide
  · decide

/-- Witness instantiating `decide_on_terminal_preview` on the applied preview
of the concrete run. -/
theorem decide_on_terminal_preview_witness :
    applyChanges exDb2 exStore2 "p1" "r2" 0 true
      = (.error (.previewNotPending Status.applied), exDb2, exStore2) ∧
    (rejectChanges exDb2 "p1").1 = .ok () := by
  have h := decide_on_terminal_preview exDb2 exStore2 "p1" "r2" 0 true
    exPreviewApplied (by decide)
  exact ⟨h.1 (by decide), h.2.1⟩

/-! ## Claim C3: applied changes versus applied previews -/

/-- Claim C3, corrected: in every reachable state each `applied` preview has
exactly one `AppliedChange` record and each `pending` preview has none; the
other direction of the claimed equivalence fails, because rejecting an
already-applied preview leaves its `AppliedChange` behind while the status
moves to `rejected`. -/
theorem appliedChange_per_applied_preview (db : DB) (store : Store)
    (h : Reachable db store) :
    ∀ p ∈ db.previews,
      (p.status = Status.applied → acCount db p.previewId = 1) ∧
      (p.status = Status.pending → acCount db p.previewId = 0) := by
  have hinv := reachable_inv h
  intro p hp
  exact ⟨(hinv.2.2 p hp).2, (hinv.2.2 p hp).1⟩

/-- Claim C3 counterexample: a reachable state in which an `AppliedChange`
record exists for a preview whose status is not `applied` (apply followed by
reject). -/
theorem appliedChange_iff_applied_counterexample :
    ∃ (db : DB) (store : Store), Reachable db store ∧
      ∃ ac ∈ db.appliedChanges, ∃ p ∈ db.previews,
        p.previewId = ac.previewId ∧ p.status ≠ Status.applied := by
  refine ⟨exDb3, exStore2, reachable_exDb3,
    exAc, ?_, { exPreviewPending with status := .rejected }, ?_, ?_, ?_⟩
  · decide
  · decide
  · decide
  · decide

/-- Witness instantiating `appliedChange_per_applied_preview` on the concrete
applied state: exactly one rollback record exists for the applied preview. -/
theorem appliedChange_per_applied_preview_witness :
    acCount exDb2 "p1" = 1 := by
  have h := appliedChange_per_applied_preview exDb2 exStore2 reachable_exDb2
    exPreviewApplied (by decide)
  exact h.1 (by decide)

/-! ## Claim C4: a failed note-store write keeps the preview pending -/

/-- Claim C4: when the note-store write of an approve decision on a pending,
unexpired preview reports failure, the operation fails with the write-failure
error and both the database (so the status is still `pending`, and no
`AppliedChange` exists) and the note store are left exactly as they were;
retrying the same decision with a successful write then succeeds. -/
theorem apply_noteStore_write_failure (db : DB) (store : Store)
    (pid rid : String) (now : Nat) (p : Preview)
    (hp : getPreview db pid = some p) (hpend : p.status = Status.pending)
    (hexp : ¬ p.expiresAt < now) :
    applyChanges db store pid rid now false
      = (.error .noteWriteFailed, db, store) ∧
    (applyChanges db store pid rid now true).1 = .ok rid := by
  have hex : (isPreviewExpired db pid now).1 = false := by
    unfold isPreviewExpired
    rw [hp]
    simp [hexp]
  constructor
  · unfold applyChanges
    rw [hp]
    simp [hpend, hex]
  · unfold applyChanges
    rw [hp]
    simp [hpend, hex]

/-- Witness instantiating `apply_noteStore_write_failure` on the concrete
pending preview. -/
theorem apply_noteStore_write_failure_witness :
    applyChanges exDb1 exStore "p1" "r1" 0 false
      = (.error .noteWriteFailed, exDb1, exStore) ∧
    (applyChanges exDb1 exStore "p1" "r1" 0 true).1 = .ok "r1" :=
  apply_noteStore_write_failure exDb1 exStore "p1" "r1" 0 exPreviewPending
    (by decide) (by decide) (by decide)

/-! ## Claim C5: rollback is a blind restore -/

/-- Claim C5: rollback on an existing `AppliedChange` blindly overwrites the
note with the stored `originalContent`, whatever the note store holds at that
moment; it never mutates any preview or rollback record (the database
component is returned unchanged), a second invocation produces the identical
result, and an unknown rollback id fails with `RollbackNotFound`.  In every
reachable state the stored `originalContent` is exactly the
`originalContent` of the preview the record points at, i.e. the snapshot
captured at preview creation. -/
theorem rollback_blind_restore (db : DB) (store : Store) (rid : String) :
    (getRollbackData db rid = none →
      ∀ w, handleRollbackChange db store rid w
        = (.error .rollbackNotFound, db, store)) ∧
    (∀ ac, getRollbackData db rid = some ac →
      handleRollbackChange db store rid true
        = (.ok ac.noteId, db, setNote store ac.noteId ac.originalContent) ∧
      readNote (setNote store ac.noteId ac.originalContent) ac.noteId
        = some ac.originalContent ∧
      handleRollbackChange db (handleRollbackChange db store rid true).2.2 rid true
        = handleRollbackChange db store rid true) ∧
    (Reachable db store → ∀ ac ∈ db.appliedChanges, ∃ p ∈ db.previews,
      p.previewId = ac.previewId ∧ p.originalContent = ac.originalContent) := by
  refine ⟨?_, ?_, ?_⟩
  · intro hnone w
    unfold handleRollbackChange
    rw [hnone]
  · intro ac hac
    have hfirst : handleRollbackChange db store rid true
        = (.ok ac.noteId, db, setNote store ac.noteId ac.originalContent) := by
      unfold handleRollbackChange
      rw [hac]
      rfl
    refine ⟨hfirst, readNote_setNote store ac.noteId ac.originalContent, ?_⟩
    have h22 : (handleRollbackChange db store rid true).2.2
        = setNote store ac.noteId ac.originalContent := by
      rw [hfirst]
    rw [h22]
    have hsecond : handleRollbackChange db (setNote store ac.noteId ac.originalContent) rid true
        = (.ok ac.noteId, db,
           setNote (setNote store ac.noteId ac.originalContent) ac.noteId ac.originalContent) := by
      unfold handleRollbackChange
      rw [hac]
      rfl
    rw [hsecond, setNote_idem, hfirst]
  · intro hreach ac hac
    have hinv := reachable_inv hreach
    obtain ⟨p, hp, hid, _, horig⟩ := hinv.2.1 ac hac
    exact ⟨p, hp, hid, horig⟩

/-- Witness instantiating `rollback_blind_restore` after the note store was
mutated to `"zzz"` by other means: rollback still overwrites with the
captured original. -/
theorem rollback_blind_restore_witness :
    handleRollbackChange exDb2 [("n1", "zzz")] "r1" true
      = (.ok "n1", exDb2, [("n1", "hello")]) := by
  have h := ((rollback_blind_restore exDb2 [("n1", "zzz")] "r1").2.1 exAc (by decide)).1
  exact h.trans (by decide)

/-! ## Claim C6: expiry -/

/-- Claim C6, corrected: for a preview whose status is `pending` and whose
deadline has passed, the expiry check returns true — and side-effects
`status := expired` — exactly when the status is `pending` and the deadline
has passed; `getStatus` then reports `expired`, and the preview can never be
decided into `applied` (apply re-checks expiry, and a marked-`expired`
preview fails the pending check).  The claim's further assertion that it can
no longer be decided at all fails: `decide` with approve = false still
succeeds and moves such a preview to `rejected`. -/
theorem expired_preview_behavior (db : DB) (pid : String) (now : Nat)
    (p : Preview) (hp : getPreview db pid = some p) :
    ((isPreviewExpired db pid now).1 = true ↔
      (p.status = Status.pending ∧ p.expiresAt < now)) ∧
    (p.status = Status.pending → p.expiresAt < now →
      getPreview (isPreviewExpired db pid now).2 pid
        = some { p with status := Status.expired } ∧
      (handleGetStatus db pid now).1
        = .ok { status := Status.expired, rollbackId := none } ∧
      (∀ (store : Store) (rid : String) (w : Bool),
        (applyChanges db store pid rid now w).1 = .error .previewExpired) ∧
      (rejectChanges (isPreviewExpired db pid now).2 pid).1 = .ok ()) ∧
    (p.status = Status.expired →
      ∀ (store : Store) (rid : String) (w : Bool),
        (applyChanges db store pid rid now w).1
          = .error (.previewNotPending Status.expired)) := by
  refine ⟨?_, ?_, ?_⟩
  · unfold isPreviewExpired
    rw [hp]
    by_cases hc : p.status = Status.pending ∧ p.expiresAt < now
    · simp [hc]
    · simp [hc]
  · intro hpend hlt
    have hex1 : (isPreviewExpired db pid now).1 = true := by
      unfold isPreviewExpired
      rw [hp]
      simp [hpend, hlt]
    have hex2 : (isPreviewExpired db pid now).2
        = (updatePreviewStatus db pid .expired).2 := by
      unfold isPreviewExpired
      rw [hp]
      simp [hpend, hlt]
    have hgp : getPreview (isPreviewExpired db pid now).2 pid
        = some { p with status := Status.expired } := by
      rw [hex2, getPreview_updateStatus, hp]
      rfl
    refine ⟨hgp, ?_, ?_, ?_⟩
    · unfold handleGetStatus
      have hgs : getPreviewStatus db pid
          = some { status := Status.pending, rollbackId := none } := by
        unfold getPreviewStatus
        rw [hp]
        simp [hpend]
      rw [hgs]
      simp [hex1]
    · intro store rid w
      unfold applyChanges
      rw [hp]
      simp [hpend, hex1]
    · have hany := any_of_getPreview hgp
      rw [hex2] at hany
      have hb : (updatePreviewStatus (updatePreviewStatus db pid Status.expired).2
          pid Status.rejected).1 = true := hany
      unfold rejectChanges
      rw [hex2]
      simp [hb]
  · intro hexp store rid w
    unfold applyChanges
    rw [hp]
    simp [hexp]

/-- Claim C6 counterexample: the expired-marked preview of the concrete run
is still successfully decided into `rejected` by the reject endpoint. -/
theorem expired_preview_reject_counterexample :
    (handleGetStatus exDb1 "p1" 1000).1
      = .ok { status := Status.expired, rollbackId := none } ∧
    Reachable exDbExp exStore ∧
    (rejectChanges exDbExp "p1").1 = .ok () ∧
    getPreview (rejectChanges exDbExp "p1").2 "p1"
      = some { exPreviewPending with status := Status.rejected } := by
  refine ⟨?_, reachable_exDbExp, ?_, ?_⟩
  · decide
  · decide
  · decide

/-- Witness instantiating `expired_preview_behavior` on the concrete pending
preview at a time past its deadline. -/
theorem expired_preview_behavior_witness :
    (handleGetStatus exDb1 "p1" 1000).1
      = .ok { status := Status.expired, rollbackId := none } ∧
    (applyChanges exDb1 exStore "p1" "r1" 1000 true).1 = .error .previewExpired := by
  have h := (expired_preview_behavior exDb1 "p1" 1000 exPreviewPending
    (by decide)).2.1 (by decide) (by decide)
  exact ⟨h.2.1, h.2.2.1 exStore "r1" true⟩

end BearMcp
